import Mathlib

/-!
Shallow embedding of the Bastion agent-verification core:

* `harbor-agent/src/captcha_solver.rs` — the deterministic CAPTCHA solver
  (`solve_pattern`, `solve_task`, `answer_question`, `try_arithmetic`);
* `relay-server/src/auth.rs` — the session store and token lifecycle
  (`verify_challenge`, `check_token`, `is_peer_verified`, `cleanup`,
  `generate_token` with a full SHA-256 over `Nat`).

Modelling conventions:
* Rust `i64` values are modelled as `Int`; the arithmetic that the claims
  touch never approaches the `i64` range, and where overflow could matter it
  is noted at the definition.
* Rust `f64` (used only in the geometric branch of `solve_pattern`) is
  modelled as `ℚ` with exact arithmetic; on all sequences the claims
  mention, the `f64` computation is exact (small integers and halves), so
  the two agree there.
* `chrono` timestamps are modelled as integer unix seconds, passed
  explicitly as a `now` parameter; `signed_duration_since(..).num_seconds()`
  becomes integer subtraction.
* `HashMap` is modelled as an association list with unique keys; `remove`
  filters the key out, `insert` replaces.
-/

namespace Bastion

/-! ### Pattern solver (captcha_solver.rs, `solve_pattern`) -/

/-- Model of `isnad::PatternSequence`: the given prefix and how many values to predict. -/
structure PatternSequence where
  given : List Int
  predict_count : Nat
deriving DecidableEq

/-- Rust `slice::windows(2)` as the list of adjacent pairs. -/
def windows2 {α : Type} (l : List α) : List (α × α) := l.zip l.tail

/-- Rust `slice::windows(3)` as the list of adjacent triples. -/
def windows3 {α : Type} (l : List α) : List (α × α × α) :=
  l.zip (l.tail.zip l.tail.tail)

/-- The arithmetic extrapolation loop: `last += d; yield last`, `n` times. -/
def extrapArith (last d : Int) : Nat → List Int
  | 0 => []
  | n + 1 => (last + d) :: extrapArith (last + d) d n

/-- The quadratic extrapolation loop:
`last_diff += d2; last += last_diff; yield last`, `n` times. -/
def extrapQuad (last last_diff d2 : Int) : Nat → List Int
  | 0 => []
  | n + 1 => (last + (last_diff + d2)) :: extrapQuad (last + (last_diff + d2)) (last_diff + d2) d2 n

/-- Subtraction on the rational `f64` model, written via `Rat.divInt` so the
kernel can evaluate it (it agrees with `ℚ` subtraction). -/
def qSub (a b : ℚ) : ℚ := Rat.divInt (a.num * b.den - b.num * a.den) (a.den * b.den)

/-- Multiplication on the rational `f64` model, via `Rat.divInt`. -/
def qMul (a b : ℚ) : ℚ := Rat.divInt (a.num * b.num) (a.den * b.den)

/-- Addition on the rational `f64` model, via `Rat.divInt`. -/
def qAdd (a b : ℚ) : ℚ := Rat.divInt (a.num * b.den + b.num * a.den) (a.den * b.den)

/-- Model of `f64::abs` on the rational model (a computable `abs` for `ℚ`). -/
def ratAbs (x : ℚ) : ℚ := if x < 0 then -x else x

/-- Rust `f64::round`: round half away from zero. (`Rat.floor`/`Rat.ceil`
are used instead of `⌊⌋`/`⌈⌉` to keep the definition kernel-computable.) -/
def rustRound (x : ℚ) : Int :=
  if 0 ≤ x then (qAdd x (Rat.divInt 1 2)).floor else (qSub x (Rat.divInt 1 2)).ceil

/-- The geometric extrapolation loop: `last *= r; yield last.round()`, `n`
times; `last` stays unrounded across iterations, as in the source. -/
def extrapGeo (last r : ℚ) : Nat → List Int
  | 0 => []
  | n + 1 => rustRound (qMul last r) :: extrapGeo (qMul last r) r n

/-- The Fibonacci extension loop: push `seq[len-2] + seq[len-1]`, `k` times.
Out-of-range indexing (impossible at the call site, where `given.len() >= 3`)
is modelled by a default of `0` where Rust would panic. -/
def fibExtend (s : List Int) : Nat → List Int
  | 0 => s
  | k + 1 => fibExtend (s ++ [s.getD (s.length - 2) 0 + s.getD (s.length - 1) 0]) k

/-- Model of `captcha_solver.rs::solve_pattern`. Tries, in source order: constant first
difference, constant second difference, constant ratio (tolerance `0.001`,
`f64` modelled as `ℚ`), Fibonacci-like; fewer than two given values yields
`predict_count` zeros; otherwise falls back to the last first-difference.
`given.last().unwrap()` / `diffs[0]` etc. are modelled with default `0`
(resp. `unwrap_or(1)` as written) — all of them are reached only when the
underlying list is nonempty. -/
def solve_pattern (seq : PatternSequence) : List Int :=
  let given := seq.given
  let n := seq.predict_count
  if given.length < 2 then
    List.replicate n 0
  else
    let diffs := (windows2 given).map fun w => w.2 - w.1
    if (windows2 diffs).all (fun w => w.1 == w.2) then
      extrapArith (given.getLastD 0) (diffs.headD 0) n
    else
      let second_diffs := (windows2 diffs).map fun w => w.2 - w.1
      if (windows2 second_diffs).all (fun w => w.1 == w.2) then
        extrapQuad (given.getLastD 0) (diffs.getLastD 0) (second_diffs.headD 0) n
      else if given.all (fun x => !(x == 0)) &&
          (let ratios := (windows2 given).map fun w => Rat.divInt w.2 w.1
           (windows2 ratios).all fun w =>
             decide (ratAbs (qSub w.1 w.2) < Rat.divInt 1 1000)) then
        let ratios := (windows2 given).map fun w => Rat.divInt w.2 w.1
        extrapGeo (Rat.divInt (given.getLastD 0) 1) (ratios.headD 0) n
      else if 3 ≤ given.length &&
          (windows3 given).all (fun w => w.2.2 == w.1 + w.2.1) then
        (fibExtend given n).drop given.length
      else
        extrapArith (given.getLastD 0) ((diffs.getLast?).getD 1) n

/-! ### Task types and `solve_task` -/

/-- Opaque text operation from the external `isnad` crate; its semantics
enter only through the `applyTextOp` parameter of `solve_task`. -/
abbrev TextOp := String

/-- Model of `isnad::CaptchaTask`, modelled from the spec (external crate): the closed
variant set of challenge tasks. -/
inductive CaptchaTask
  | patternCompletion (sequences : List PatternSequence)
  | textTransformation (input : String) (operations : List TextOp)
  | parallelQuestions (questions : List String)
  | readingComprehension (passage : String) (questions : List String)
  | metaQuestion (prompt : String) (expected_keyword : String)
deriving DecidableEq

/-- Model of `isnad::TaskAnswer`, modelled from the spec (external crate): the answer
variant mirroring each task variant. -/
inductive TaskAnswer
  | patternCompletion (predictions : List (List Int))
  | textTransformation (result : String)
  | parallelQuestions (answers : List String)
  | readingComprehension (answers : List String)
  | metaQuestion (answer : String)
deriving DecidableEq

/-! ### Question answering (captcha_solver.rs, `answer_question`) -/

/-- ASCII lowercasing of one character; `char::to_lowercase` on the
characters the fact table and arithmetic use (ASCII letters, digits,
punctuation, `×`) agrees with this. -/
def lowerChar (c : Char) : Char :=
  if 65 ≤ c.toNat ∧ c.toNat ≤ 90 then Char.ofNat (c.toNat + 32) else c

/-- Model of `str::to_lowercase`, character-wise. -/
def toLowerStr (s : List Char) : List Char := s.map lowerChar

/-- Whitespace recognised by `str::trim` (ASCII subset). -/
def isWsChar (c : Char) : Bool :=
  c.toNat == 32 || c.toNat == 9 || c.toNat == 10 ||
  c.toNat == 13 || c.toNat == 11 || c.toNat == 12

/-- Model of `str::trim`: drop leading and trailing whitespace. -/
def trimStr (s : List Char) : List Char :=
  ((s.dropWhile isWsChar).reverse.dropWhile isWsChar).reverse

/-- Model of `str::parse::<i64>` digit run: nonempty, all ASCII digits. -/
def parseDigits (s : List Char) : Option Nat :=
  if !s.isEmpty && s.all Char.isDigit then
    some (s.foldl (fun acc c => acc * 10 + (c.toNat - 48)) 0)
  else none

/-- The constant `2^63`, the magnitude bound of `i64`. -/
def i64Lim : Nat := 9223372036854775808

/-- Model of `str::parse::<i64>`: optional leading sign, digit run, in-range check
(positive values below `2^63`, negative magnitudes up to `2^63`). -/
def parseI64 (s : List Char) : Option Int :=
  match s with
  | [] => none
  | c :: rest =>
    if c = '+' then
      (parseDigits rest).bind fun v => if v < i64Lim then some (v : Int) else none
    else if c = '-' then
      (parseDigits rest).bind fun v => if v ≤ i64Lim then some (-(v : Int)) else none
    else
      (parseDigits (c :: rest)).bind fun v => if v < i64Lim then some (v : Int) else none

/-- Model of `str::split_once`: split at the first occurrence of `sep`. -/
def splitOnce : List Char → Char → Option (List Char × List Char)
  | [], _ => none
  | c :: rest, sep =>
    if c = sep then some ([], rest)
    else
      match splitOnce rest sep with
      | some (a, b) => some (c :: a, b)
      | none => none

/-- Model of `str::replace` worker: replace every (non-overlapping, leftmost-first)
occurrence of `pat` by `rep`. Structural recursion on a fuel argument keeps
it kernel-computable; each step consumes at least one character, so fuel
`s.length` (as supplied by `replaceAll`) never runs out. -/
def replaceAllAux (pat rep : List Char) : Nat → List Char → List Char
  | _, [] => []
  | 0, s => s
  | fuel + 1, c :: rest =>
    if pat ≠ [] ∧ pat.isPrefixOf (c :: rest) then
      rep ++ replaceAllAux pat rep fuel (rest.drop (pat.length - 1))
    else
      c :: replaceAllAux pat rep fuel rest

/-- Model of `str::replace`. The `pat ≠ []` guard in the worker matches the two call
sites (`"what is"`, `"?"`), which always pass a nonempty pattern. -/
def replaceAll (pat rep s : List Char) : List Char :=
  replaceAllAux pat rep s.length s

/-- The preprocessing at the head of `try_arithmetic`:
`q.replace("what is", "").replace("?", "").trim()`. -/
def preprocess (q : List Char) : List Char :=
  trimStr (replaceAll ("?".data) [] (replaceAll ("what is".data) [] q))

/-- One `split_once` + both-sides `parse::<i64>` attempt, as each operator
branch of `try_arithmetic` performs. -/
def tryBin (q : List Char) (sep : Char) : Option (Int × Int) :=
  match splitOnce q sep with
  | some (a, b) =>
    match parseI64 (trimStr a), parseI64 (trimStr b) with
    | some x, some y => some (x, y)
    | _, _ => none
  | none => none

/-- The addition and subtraction branches of `try_arithmetic`, reached after
the division branch declines (no `/`, unparsable sides, or divisor zero). -/
def afterDiv (q : List Char) : Option Int :=
  match tryBin q '+' with
  | some (a, b) => some (a + b)
  | none =>
    match tryBin q '-' with
    | some (a, b) => some (a - b)
    | none => none

/-- Model of `captcha_solver.rs::try_arithmetic`. Operator order as in the source:
`*`, `×`, `/` (skipped when the divisor is zero), `+`, `-`. Rust `i64`
division truncates toward zero, hence `Int.div`. `i64` overflow of the
evaluated operation (a debug-mode panic in Rust) is not modelled; no claim
touches it. -/
def try_arithmetic (q0 : List Char) : Option Int :=
  let q := preprocess q0
  match tryBin q '*' with
  | some (a, b) => some (a * b)
  | none =>
    match tryBin q '×' with
    | some (a, b) => some (a * b)
    | none =>
      match tryBin q '/' with
      | some (a, b) => if b = 0 then afterDiv q else some (Int.tdiv a b)
      | none => afterDiv q

/-- Model of `i64::to_string` for the numeric answer. -/
def intToStr (i : Int) : List Char :=
  if i < 0 then '-' :: Nat.toDigits 10 i.natAbs else Nat.toDigits 10 i.toNat

/-- Model of `str::contains` (substring). -/
def containsStr (s sub : List Char) : Bool := decide (sub <:+: s)

/-- The fixed fact table of `answer_question`, tried after arithmetic fails,
ending in the literal `"unknown"`. -/
def lookupFacts (ql : List Char) : List Char :=
  if containsStr ql ("capital of france".data) then "Paris".data
  else if containsStr ql ("capital of germany".data) then "Berlin".data
  else if containsStr ql ("capital of japan".data) then "Tokyo".data
  else if containsStr ql ("hexagon".data) && containsStr ql ("sides".data) then "6".data
  else if containsStr ql ("pentagon".data) && containsStr ql ("sides".data) then "5".data
  else if containsStr ql ("octagon".data) && containsStr ql ("sides".data) then "8".data
  else if containsStr ql ("chemical symbol".data) && containsStr ql ("gold".data) then "Au".data
  else if containsStr ql ("chemical symbol".data) && containsStr ql ("silver".data) then "Ag".data
  else if containsStr ql ("chemical symbol".data) && containsStr ql ("iron".data) then "Fe".data
  else "unknown".data

/-- Model of `captcha_solver.rs::answer_question` on character lists. -/
def answerQuestionChars (q : List Char) : List Char :=
  let ql := toLowerStr q
  match try_arithmetic ql with
  | some r => intToStr r
  | none => lookupFacts ql

/-- Model of `captcha_solver.rs::answer_question`. -/
def answer_question (q : String) : String := ⟨answerQuestionChars q.data⟩

/-- Model of `captcha_solver.rs::solve_task`. The external `apply_text_op` is a
parameter; everything else is from the source. -/
def solve_task (applyTextOp : String → TextOp → String) : CaptchaTask → TaskAnswer
  | .patternCompletion sequences => .patternCompletion (sequences.map solve_pattern)
  | .textTransformation input operations =>
      .textTransformation (operations.foldl applyTextOp input)
  | .parallelQuestions questions => .parallelQuestions (questions.map answer_question)
  | .readingComprehension _ questions =>
      .readingComprehension (questions.map fun _ => "unknown")
  | .metaQuestion _ expected_keyword => .metaQuestion expected_keyword

/-! ### SHA-256 over `Nat` (the `sha2` crate as used by `generate_token`) -/

/-- Truncate to a 32-bit word. -/
def w32 (n : Nat) : Nat := n % 4294967296

/-- Rotate right within 32 bits. -/
def rotr (x n : Nat) : Nat := w32 ((x >>> n) ||| (x <<< (32 - n)))

/-- SHA-256 `Ch(x,y,z) = (x ∧ y) ⊕ (¬x ∧ z)`. -/
def shaCh (x y z : Nat) : Nat := Nat.xor (x &&& y) ((Nat.xor x 4294967295) &&& z)

/-- SHA-256 `Maj(x,y,z)`. -/
def shaMaj (x y z : Nat) : Nat := Nat.xor (Nat.xor (x &&& y) (x &&& z)) (y &&& z)

/-- SHA-256 `Σ0`. -/
def bsig0 (x : Nat) : Nat := Nat.xor (Nat.xor (rotr x 2) (rotr x 13)) (rotr x 22)

/-- SHA-256 `Σ1`. -/
def bsig1 (x : Nat) : Nat := Nat.xor (Nat.xor (rotr x 6) (rotr x 11)) (rotr x 25)

/-- SHA-256 `σ0`. -/
def ssig0 (x : Nat) : Nat := Nat.xor (Nat.xor (rotr x 7) (rotr x 18)) (x >>> 3)

/-- SHA-256 `σ1`. -/
def ssig1 (x : Nat) : Nat := Nat.xor (Nat.xor (rotr x 17) (rotr x 19)) (x >>> 10)

/-- The 64 SHA-256 round constants. -/
def K256 : List Nat :=
  [1116352408, 1899447441, 3049323471, 3921009573, 961987163, 1508970993,
   2453635748, 2870763221, 3624381080, 310598401, 607225278, 1426881987,
   1925078388, 2162078206, 2614888103, 3248222580, 3835390401, 4022224774,
   264347078, 604807628, 770255983, 1249150122, 1555081692, 1996064986,
   2554220882, 2821834349, 2952996808, 3210313671, 3336571891, 3584528711,
   113926993, 338241895, 666307205, 773529912, 1294757372, 1396182291,
   1695183700, 1986661051, 2177026350, 2456956037, 2730485921, 2820302411,
   3259730800, 3345764771, 3516065817, 3600352804, 4094571909, 275423344,
   430227734, 506948616, 659060556, 883997877, 958139571, 1322822218,
   1537002063, 1747873779, 1955562222, 2024104815, 2227730452, 2361852424,
   2428436474, 2756734187, 3204031479, 3329325298]

/-- The eight 32-bit words of SHA-256 working state. -/
structure Sha8 where
  a : Nat
  b : Nat
  c : Nat
  d : Nat
  e : Nat
  f : Nat
  g : Nat
  h : Nat
deriving DecidableEq

/-- SHA-256 initial hash value. -/
def shaInit : Sha8 :=
  ⟨1779033703, 3144134277, 1013904242, 2773480762,
   1359893119, 2600822924, 528734635, 1541459225⟩

/-- One SHA-256 round; `kw` is the already-added `K[t] + W[t]`. -/
def shaRound (s : Sha8) (kw : Nat) : Sha8 :=
  let t1 := w32 (s.h + bsig1 s.e + shaCh s.e s.f s.g + kw)
  let t2 := w32 (bsig0 s.a + shaMaj s.a s.b s.c)
  ⟨w32 (t1 + t2), s.a, s.b, s.c, w32 (s.d + t1), s.e, s.f, s.g⟩

/-- Extend the 16-word block schedule by `k` further words. -/
def extendSchedule (ws : List Nat) : Nat → List Nat
  | 0 => ws
  | k + 1 =>
    extendSchedule
      (ws ++ [w32 (ssig1 (ws.getD (ws.length - 2) 0) + ws.getD (ws.length - 7) 0 +
        ssig0 (ws.getD (ws.length - 15) 0) + ws.getD (ws.length - 16) 0)]) k

/-- SHA-256 compression of one 16-word block into the running hash. -/
def compressBlock (hv : Sha8) (block : List Nat) : Sha8 :=
  let ws := extendSchedule block 48
  let kws := (K256.zip ws).map fun p => w32 (p.1 + p.2)
  let s := kws.foldl shaRound hv
  ⟨w32 (hv.a + s.a), w32 (hv.b + s.b), w32 (hv.c + s.c), w32 (hv.d + s.d),
   w32 (hv.e + s.e), w32 (hv.f + s.f), w32 (hv.g + s.g), w32 (hv.h + s.h)⟩

/-- Big-endian 8-byte encoding (for the 64-bit padded bit length). -/
def beBytes8 (n : Nat) : List Nat :=
  [(n >>> 56) % 256, (n >>> 48) % 256, (n >>> 40) % 256, (n >>> 32) % 256,
   (n >>> 24) % 256, (n >>> 16) % 256, (n >>> 8) % 256, n % 256]

/-- SHA-256 padding: `0x80`, zeros to 56 mod 64 bytes, 8-byte bit length. -/
def shaPad (msg : List Nat) : List Nat :=
  msg ++ [128] ++ List.replicate ((119 - msg.length % 64) % 64) 0 ++
    beBytes8 (8 * msg.length)

/-- Big-endian bytes to 32-bit words. -/
def bytesToWords : List Nat → List Nat
  | b0 :: b1 :: b2 :: b3 :: rest =>
    (b0 * 16777216 + b1 * 65536 + b2 * 256 + b3) :: bytesToWords rest
  | _ => []

/-- Chunk a word list into 16-word blocks; fuel-structured for kernel
computability (fuel `ws.length` suffices since each step drops 16 words). -/
def toBlocksAux : Nat → List Nat → List (List Nat)
  | _, [] => []
  | 0, ws => [ws]
  | fuel + 1, ws => ws.take 16 :: toBlocksAux fuel (ws.drop 16)

/-- Chunk a word list into 16-word blocks. -/
def toBlocks (ws : List Nat) : List (List Nat) := toBlocksAux ws.length ws

/-- The four big-endian bytes of a 32-bit word. -/
def wordBytes (w : Nat) : List Nat :=
  [(w >>> 24) % 256, (w >>> 16) % 256, (w >>> 8) % 256, w % 256]

/-- SHA-256 of a byte list, yielding the 32 digest bytes. -/
def sha256 (msg : List Nat) : List Nat :=
  let hv := (toBlocks (bytesToWords (shaPad msg))).foldl compressBlock shaInit
  wordBytes hv.a ++ wordBytes hv.b ++ wordBytes hv.c ++ wordBytes hv.d ++
    wordBytes hv.e ++ wordBytes hv.f ++ wordBytes hv.g ++ wordBytes hv.h

/-! ### Token generation (auth.rs, `generate_token`) -/

/-- One lowercase hex digit (`0`–`9`, `a`–`f`). -/
def hexDigit (n : Nat) : Char :=
  if n < 10 then Char.ofNat (48 + n) else Char.ofNat (87 + n)

/-- Model of `format!("{:02x}", b)`: two lowercase hex digits of a byte. -/
def hexByte (b : Nat) : List Char := [hexDigit (b / 16), hexDigit (b % 16)]

/-- The lowercase-hex string of a byte list. -/
def hexEncode (bs : List Nat) : List Char := (bs.map hexByte).flatten

/-- UTF-8 encoding of one character (`str::as_bytes`). -/
def utf8EncodeChar (c : Char) : List Nat :=
  let n := c.toNat
  if n < 128 then [n]
  else if n < 2048 then [192 ||| (n >>> 6), 128 ||| (n &&& 63)]
  else if n < 65536 then
    [224 ||| (n >>> 12), 128 ||| ((n >>> 6) &&& 63), 128 ||| (n &&& 63)]
  else
    [240 ||| (n >>> 18), 128 ||| ((n >>> 12) &&& 63),
     128 ||| ((n >>> 6) &&& 63), 128 ||| (n &&& 63)]

/-- Model of `str::as_bytes`: UTF-8 bytes of a string. -/
def utf8Encode (s : String) : List Nat := (s.data.map utf8EncodeChar).flatten

/-- Model of `i64::to_le_bytes` of the unix-seconds timestamp: 8 bytes, little-endian,
two's complement (`ts mod 2^64`). -/
def i64ToLeBytes (ts : Int) : List Nat :=
  let n := (ts.emod 18446744073709551616).toNat
  [n % 256, (n >>> 8) % 256, (n >>> 16) % 256, (n >>> 24) % 256,
   (n >>> 32) % 256, (n >>> 40) % 256, (n >>> 48) % 256, (n >>> 56) % 256]

/-- Model of `auth.rs::generate_token`. The hashed message is
`peer_id bytes ‖ 16 random bytes (Uuid::new_v4) ‖ 8-byte LE timestamp`; the
random bytes and the timestamp are explicit parameters of the model. -/
def generate_token (peer_bytes uuid_bytes : List Nat) (ts : Int) : List Char :=
  "isnad_".data ++ hexEncode (sha256 (peer_bytes ++ uuid_bytes ++ i64ToLeBytes ts))

/-! ### Session store (auth.rs) -/

/-- Model of `CHALLENGE_TTL_SECS`: how long a pending challenge stays valid. -/
def CHALLENGE_TTL_SECS : Int := 60

/-- Model of `TOKEN_TTL_SECS`: how long a verified token stays valid. -/
def TOKEN_TTL_SECS : Int := 3600

/-- Model of `isnad::CaptchaChallenge`, modelled from the spec (external crate):
opaque unique id plus the ordered task list. `Uuid` is modelled as `Nat`. -/
structure CaptchaChallenge where
  challenge_id : Nat
  tasks : List CaptchaTask
deriving DecidableEq

/-- Model of `isnad::CaptchaResponse`, modelled from the spec (external crate). -/
structure CaptchaResponse where
  challenge_id : Nat
  submitted_at : Int
  answers : List TaskAnswer
deriving DecidableEq

/-- The oracle's verification outcome (`elapsed_ms`, `tasks_correct`,
`tasks_total`), modelled from the spec (external crate). -/
structure Verification where
  elapsed_ms : Int
  tasks_correct : Nat
  tasks_total : Nat
deriving DecidableEq

/-- The external `CaptchaVerifier::verify` scoring call, opaque to this
core: any function from (challenge, response, expected answers) to an
outcome or a failure reason. -/
abbrev Oracle := CaptchaChallenge → CaptchaResponse → List TaskAnswer → Except String Verification

/-- Model of `auth.rs::PendingChallenge`. The stored `challenge_json` is modelled as
the challenge value itself (the serde round-trip is the identity in the
model, so the 500 reconstruction branch is unreachable). -/
structure PendingChallenge where
  expected_answers : List TaskAnswer
  challenge : CaptchaChallenge
  peer_id : String
  issued_at : Int
deriving DecidableEq

/-- Model of `auth.rs::VerifiedAgent`. -/
structure VerifiedAgent where
  peer_id : String
  verified_at : Int
deriving DecidableEq

/-- Model of `auth.rs::AuthState`: the two locked maps, as association lists with
unique keys. -/
structure AuthStateM where
  pending : List (Nat × PendingChallenge)
  verified : List (String × VerifiedAgent)
deriving DecidableEq

/-- Model of `HashMap` lookup on the association-list model. -/
def alLookup {κ α : Type} [DecidableEq κ] : List (κ × α) → κ → Option α
  | [], _ => none
  | (k, v) :: rest, key => if k = key then some v else alLookup rest key

/-- Model of `HashMap::remove` on the model: drop the (unique) entry for `key`. -/
def alErase {κ α : Type} [DecidableEq κ] (l : List (κ × α)) (key : κ) : List (κ × α) :=
  l.filter fun p => p.1 ≠ key

/-- Model of `HashMap::insert` on the model: bind `key` to `v`, replacing any
previous binding. -/
def alInsert {κ α : Type} [DecidableEq κ] (l : List (κ × α)) (key : κ) (v : α) :
    List (κ × α) :=
  (key, v) :: alErase l key

/-- The error taxonomy of `auth.rs::verify_challenge`. -/
inductive AuthErrKind
  | challengeNotFoundOrExpired
  | peerMismatch
  | verificationFailed (reason : String)
deriving DecidableEq

/-- The HTTP status each error is returned with. -/
def statusOf : AuthErrKind → Nat
  | .challengeNotFoundOrExpired => 404
  | .peerMismatch => 403
  | .verificationFailed _ => 403

/-- Model of `auth.rs::VerifyRequest`. -/
structure VerifyRequest where
  peer_id : String
  response : CaptchaResponse
deriving DecidableEq

/-- Model of `auth.rs::VerifyResponse`. -/
structure VerifyResponse where
  token : String
  expires_in_seconds : Int
  peer_id : String
deriving DecidableEq

/-- Model of `auth.rs::CheckTokenResponse`. -/
structure CheckTokenResponse where
  valid : Bool
  peer_id : Option String
  remaining_seconds : Int
deriving DecidableEq

/-- Model of `auth.rs::verify_challenge`. The oracle, the `Uuid::new_v4` bytes and
`Utc::now()` are explicit parameters. `pending.remove(&challenge_id)` is the
single atomic lookup-and-remove: the returned state always has the entry
erased, whatever the outcome. -/
def verify_challenge (oracle : Oracle) (uuid_bytes : List Nat) (now : Int)
    (st : AuthStateM) (req : VerifyRequest) :
    Except AuthErrKind VerifyResponse × AuthStateM :=
  let challenge_id := req.response.challenge_id
  let removed := alLookup st.pending challenge_id
  let st1 : AuthStateM := { st with pending := alErase st.pending challenge_id }
  match removed with
  | none => (.error .challengeNotFoundOrExpired, st1)
  | some pending =>
    if pending.peer_id ≠ req.peer_id then
      (.error .peerMismatch, st1)
    else
      match oracle pending.challenge req.response pending.expected_answers with
      | .ok _verification =>
        let token := String.mk (generate_token (utf8Encode req.peer_id) uuid_bytes now)
        (.ok ⟨token, TOKEN_TTL_SECS, req.peer_id⟩,
         { st1 with verified := alInsert st1.verified token ⟨req.peer_id, now⟩ })
      | .error e => (.error (.verificationFailed e), st1)

/-- Model of `auth.rs::check_token`: pure read of the token map (it takes the
state only as input and returns no state, so it can mutate nothing). -/
def check_token (now : Int) (st : AuthStateM) (token : String) : CheckTokenResponse :=
  match alLookup st.verified token with
  | some agent =>
    if now - agent.verified_at < TOKEN_TTL_SECS then
      ⟨true, some agent.peer_id, TOKEN_TTL_SECS - (now - agent.verified_at)⟩
    else
      ⟨false, none, 0⟩
  | none => ⟨false, none, 0⟩

/-- Model of `auth.rs::is_peer_verified`: linear scan of the token map. -/
def is_peer_verified (now : Int) (st : AuthStateM) (peer_id : String) : Bool :=
  st.verified.any fun p =>
    p.2.peer_id == peer_id && decide (now - p.2.verified_at < TOKEN_TTL_SECS)

/-- Model of `auth.rs::cleanup`: retain pending entries younger than
`CHALLENGE_TTL_SECS` and tokens younger than `TOKEN_TTL_SECS`. -/
def cleanup (now : Int) (st : AuthStateM) : AuthStateM :=
  { pending := st.pending.filter fun p => decide (now - p.2.issued_at < CHALLENGE_TTL_SECS),
    verified := st.verified.filter fun p => decide (now - p.2.verified_at < TOKEN_TTL_SECS) }

/-- Lowercase hex alphabet membership (`[0-9a-f]`). -/
def isHexLowerChar (c : Char) : Bool :=
  c.isDigit || (decide (97 ≤ c.toNat) && decide (c.toNat ≤ 102))

/-! ### Concrete fixtures for witnesses and counterexamples -/

/-- A sample task. -/
def task0 : CaptchaTask := .metaQuestion ("Are you an autonomous agent?") ("autonomous")

/-- The matching sample answer. -/
def ans0 : TaskAnswer := .metaQuestion ("autonomous")

/-- A sample stored challenge with two tasks. -/
def ch0 : CaptchaChallenge := ⟨7, [task0, task0]⟩

/-- The pending entry for `ch0`, issued to `"peerA"` at time 0. -/
def pend0 : PendingChallenge := ⟨[ans0, ans0], ch0, "peerA", 0⟩

/-- A store holding exactly the pending challenge `ch0`. -/
def st0 : AuthStateM := ⟨[(7, pend0)], []⟩

/-- An oracle that accepts every response. -/
def acceptOracle : Oracle := fun _ _ _ => .ok ⟨1200, 2, 2⟩

/-- An oracle that rejects every response. -/
def rejectOracle : Oracle := fun _ _ _ => .error ("too few correct answers")

/-- A verify request with the right peer but only one answer for the two
stored tasks (arity mismatch). -/
def reqArity : VerifyRequest := ⟨"peerA", ⟨7, 5, [ans0]⟩⟩

/-- A verify request for `ch0` from the wrong peer, with both answers
present and correct. -/
def reqWrongPeer : VerifyRequest := ⟨"peerB", ⟨7, 5, [ans0, ans0]⟩⟩

/-- A verify request for `ch0` from the right peer with matching answers. -/
def reqGood : VerifyRequest := ⟨"peerA", ⟨7, 5, [ans0, ans0]⟩⟩

/-- Fixed model bytes for `Uuid::new_v4`. -/
def uuid0 : List Nat := List.replicate 16 0

/-! ## Helper lemmas -/

theorem alLookup_alErase {κ α : Type} [DecidableEq κ] (l : List (κ × α)) (k : κ) :
    alLookup (alErase l k) k = none := by
  induction l with
  | nil => rfl
  | cons hd tl ih =>
    obtain ⟨k', v⟩ := hd
    by_cases h : k' = k
    · simpa [alErase, List.filter_cons, h] using ih
    · simpa [alErase, List.filter_cons, h, alLookup] using ih

/-- Whatever the outcome, `verify_challenge` leaves the pending map with the
requested `challenge_id` erased and everything else intact. -/
theorem verifyChallenge_pending (oracle : Oracle) (uuid_bytes : List Nat) (now : Int)
    (st : AuthStateM) (req : VerifyRequest) :
    (verify_challenge oracle uuid_bytes now st req).2.pending =
      alErase st.pending req.response.challenge_id := by
  unfold verify_challenge
  rcases h : alLookup st.pending req.response.challenge_id with _ | p
  · simp [h]
  · by_cases hp : p.peer_id ≠ req.peer_id
    · simp [h, hp]
    · rcases ho : oracle p.challenge req.response p.expected_answers with e | v <;>
        simp [h, hp, ho]

/-- A missing (unknown, expired, or consumed) `challenge_id` yields
`ChallengeNotFoundOrExpired`, with the store unchanged except for the no-op
erase. -/
theorem verifyChallenge_notFound (oracle : Oracle) (uuid_bytes : List Nat) (now : Int)
    (st : AuthStateM) (req : VerifyRequest)
    (h : alLookup st.pending req.response.challenge_id = none) :
    (verify_challenge oracle uuid_bytes now st req).1 =
      .error .challengeNotFoundOrExpired := by
  unfold verify_challenge
  simp [h]

theorem extrapArith_length (n : Nat) : ∀ last d : Int, (extrapArith last d n).length = n := by
  induction n with
  | zero => intro _ _; rfl
  | succ k ih => intro last d; simp [extrapArith, ih]

theorem extrapQuad_length (n : Nat) :
    ∀ last last_diff d2 : Int, (extrapQuad last last_diff d2 n).length = n := by
  induction n with
  | zero => intro _ _ _; rfl
  | succ k ih => intro last last_diff d2; simp [extrapQuad, ih]

theorem extrapGeo_length (n : Nat) : ∀ last r : ℚ, (extrapGeo last r n).length = n := by
  induction n with
  | zero => intro _ _; rfl
  | succ k ih => intro last r; simp [extrapGeo, ih]

theorem fibExtend_length (k : Nat) : ∀ s : List Int, (fibExtend s k).length = s.length + k := by
  induction k with
  | zero => intro s; rfl
  | succ m ih =>
    intro s
    rw [fibExtend, ih]
    simp
    omega

/-! ### Lemmas about parsing, trimming and splitting (for C7) -/

theorem parseDigits_chars {s : List Char} {v : Nat} (h : parseDigits s = some v) :
    ∀ c ∈ s, c.isDigit = true := by
  intro c hc
  unfold parseDigits at h
  split at h
  · rename_i hcond
    rw [Bool.and_eq_true, List.all_eq_true] at hcond
    exact hcond.2 c hc
  · exact absurd h (by simp)

theorem parseI64_nil : parseI64 [] = none := rfl

theorem parseI64_chars {s : List Char} {v : Int} (h : parseI64 s = some v) :
    ∀ c ∈ s, c.isDigit = true ∨ c = '+' ∨ c = '-' := by
  rcases s with _ | ⟨c0, rest⟩
  · intro c hc; simp at hc
  · simp only [parseI64] at h
    split at h
    · rename_i h0
      rcases Option.bind_eq_some.mp h with ⟨w, hw, _⟩
      intro c hc
      rcases List.mem_cons.mp hc with rfl | hcr
      · exact Or.inr (Or.inl h0)
      · exact Or.inl (parseDigits_chars hw c hcr)
    · split at h
      · rename_i h0
        rcases Option.bind_eq_some.mp h with ⟨w, hw, _⟩
        intro c hc
        rcases List.mem_cons.mp hc with rfl | hcr
        · exact Or.inr (Or.inr h0)
        · exact Or.inl (parseDigits_chars hw c hcr)
      · rcases Option.bind_eq_some.mp h with ⟨w, hw, _⟩
        intro c hc
        exact Or.inl (parseDigits_chars hw c hc)

theorem parseI64_tail {c0 : Char} {rest : List Char} {v : Int}
    (h : parseI64 (c0 :: rest) = some v) : ∀ c ∈ rest, c.isDigit = true := by
  simp only [parseI64] at h
  split at h
  · rcases Option.bind_eq_some.mp h with ⟨w, hw, _⟩
    exact fun c hc => parseDigits_chars hw c hc
  · split at h
    · rcases Option.bind_eq_some.mp h with ⟨w, hw, _⟩
      exact fun c hc => parseDigits_chars hw c hc
    · rcases Option.bind_eq_some.mp h with ⟨w, hw, _⟩
      exact fun c hc => parseDigits_chars hw c (List.mem_cons_of_mem _ hc)

theorem trim_decomp (s : List Char) :
    ∃ p q, s = p ++ trimStr s ++ q ∧ (∀ c ∈ p, isWsChar c = true) ∧
      (∀ c ∈ q, isWsChar c = true) := by
  refine ⟨s.takeWhile isWsChar,
    ((s.dropWhile isWsChar).reverse.takeWhile isWsChar).reverse, ?_, ?_, ?_⟩
  · conv_lhs => rw [← List.takeWhile_append_dropWhile isWsChar s]
    rw [List.append_assoc]
    congr 1
    have h1 : s.dropWhile isWsChar =
        ((s.dropWhile isWsChar).reverse.takeWhile isWsChar ++
          (s.dropWhile isWsChar).reverse.dropWhile isWsChar).reverse := by
      rw [List.takeWhile_append_dropWhile, List.reverse_reverse]
    rw [List.reverse_append] at h1
    exact h1
  · intro c hc
    exact List.mem_takeWhile_imp hc
  · intro c hc
    exact List.mem_takeWhile_imp (List.mem_reverse.mp hc)

theorem mem_trim_of_not_ws {s : List Char} {c : Char} (hc : c ∈ s)
    (hw : isWsChar c = false) : c ∈ trimStr s := by
  obtain ⟨p, q, hs, hp, hq⟩ := trim_decomp s
  have h2 : c ∈ p ++ trimStr s ++ q := by rw [← hs]; exact hc
  simp only [List.append_assoc, List.mem_append] at h2
  rcases h2 with h | h | h
  · rw [hp c h] at hw; cases hw
  · exact h
  · rw [hq c h] at hw; cases hw

theorem trim_of_all_ws {s : List Char} (h : ∀ c ∈ s, isWsChar c = true) :
    trimStr s = [] := by
  have h1 : s.dropWhile isWsChar = [] := List.dropWhile_eq_nil_iff.mpr h
  rw [trimStr, h1]
  rfl

theorem splitOnce_eq_none {s : List Char} {sep : Char} (h : sep ∉ s) :
    splitOnce s sep = none := by
  induction s with
  | nil => rfl
  | cons c rest ih =>
    have hc : ¬ c = sep := fun he => h (he ▸ List.mem_cons_self ..)
    have hr : sep ∉ rest := fun hm => h (List.mem_cons_of_mem _ hm)
    simp [splitOnce, hc, ih hr]

theorem splitOnce_append (a b : List Char) (sep : Char) (h : sep ∉ a) :
    splitOnce (a ++ sep :: b) sep = some (a, b) := by
  induction a with
  | nil => simp [splitOnce]
  | cons c rest ih =>
    have hc : ¬ c = sep := fun he => h (he ▸ List.mem_cons_self ..)
    have hr : sep ∉ rest := fun hm => h (List.mem_cons_of_mem _ hm)
    simp [splitOnce, hc, ih hr]

theorem splitOnce_of_mem {s : List Char} {sep : Char} (h : sep ∈ s) :
    ∃ l r, splitOnce s sep = some (l, r) ∧ s = l ++ sep :: r ∧ sep ∉ l := by
  induction s with
  | nil => cases h
  | cons c rest ih =>
    by_cases hc : c = sep
    · subst hc
      exact ⟨[], rest, by simp [splitOnce], rfl, by simp⟩
    · have hr : sep ∈ rest := by
        rcases List.mem_cons.mp h with h0 | h0
        · exact absurd h0.symm hc
        · exact h0
      obtain ⟨l, r, h1, h2, h3⟩ := ih hr
      refine ⟨c :: l, r, by simp [splitOnce, hc, h1], by simp [h2], ?_⟩
      intro hin
      rcases List.mem_cons.mp hin with h0 | h0
      · exact hc h0.symm
      · exact h3 h0

theorem append_cons_inj {α : Type} [DecidableEq α] :
    ∀ (x : List α) {y : List α} (u : List α) {v : List α} {c : α},
      x ++ c :: y = u ++ c :: v → c ∉ x → c ∉ u → x = u ∧ y = v := by
  intro x
  induction x with
  | nil =>
    intro y u v c h hx hu
    rcases u with _ | ⟨d, us⟩
    · simpa using h
    · simp only [List.nil_append, List.cons_append, List.cons.injEq] at h
      exact absurd (h.1 ▸ List.mem_cons_self ..) hu
  | cons d xs ih =>
    intro y u v c h hx hu
    rcases u with _ | ⟨e, us⟩
    · simp only [List.cons_append, List.nil_append, List.cons.injEq] at h
      exact absurd (h.1 ▸ List.mem_cons_self ..) hx
    · simp only [List.cons_append, List.cons.injEq] at h
      have hx' : c ∉ xs := fun hm => hx (List.mem_cons_of_mem _ hm)
      have hu' : c ∉ us := fun hm => hu (List.mem_cons_of_mem _ hm)
      obtain ⟨h1, h2⟩ := ih us h.2 hx' hu'
      exact ⟨by rw [h.1, h1], h2⟩

theorem chars_of_parse_trim {s : List Char} {v : Int}
    (h : parseI64 (trimStr s) = some v) :
    ∀ c ∈ s, isWsChar c = true ∨ c.isDigit = true ∨ c = '+' ∨ c = '-' := by
  intro c hc
  by_cases hw : isWsChar c = true
  · exact Or.inl hw
  · exact Or.inr (parseI64_chars h c
      (mem_trim_of_not_ws hc (Bool.not_eq_true _ ▸ hw)))

theorem char_not_in {l : List Char}
    (hl : ∀ c ∈ l, isWsChar c = true ∨ c.isDigit = true ∨ c = '+' ∨ c = '-')
    (ch : Char) (h1 : isWsChar ch = false) (h2 : ch.isDigit = false)
    (h3 : ch ≠ '+') (h4 : ch ≠ '-') : ch ∉ l := by
  intro hin
  rcases hl ch hin with h | h | h | h
  · rw [h1] at h; cases h
  · rw [h2] at h; cases h
  · exact h3 h
  · exact h4 h

/-- If the trimmed text parses as an integer, then the text before its first
sign character (`+` or `-`) is all whitespace: in a parseable operand the
sign can only be the very first non-blank character. -/
theorem sign_ws_prefix {s : List Char} {v : Int} {sg : Char} {s1 s2 : List Char}
    (hparse : parseI64 (trimStr s) = some v) (hsg : sg = '+' ∨ sg = '-')
    (hsplit : s = s1 ++ sg :: s2) (hnot : sg ∉ s1) :
    ∀ c ∈ s1, isWsChar c = true := by
  obtain ⟨p, q, hs, hp, hq⟩ := trim_decomp s
  have htne : trimStr s ≠ [] := by
    intro h0
    rw [h0, parseI64_nil] at hparse
    cases hparse
  obtain ⟨c0, ds, hcd⟩ := List.exists_cons_of_ne_nil htne
  have hds : ∀ c ∈ ds, c.isDigit = true := parseI64_tail (hcd ▸ hparse)
  have hmem : sg ∈ s := by rw [hsplit]; simp
  have hsgw : isWsChar sg = false := by rcases hsg with h | h <;> subst h <;> decide
  have hsgd : sg.isDigit = false := by rcases hsg with h | h <;> subst h <;> decide
  have h3 : sg ∈ trimStr s := mem_trim_of_not_ws hmem hsgw
  have h4 : sg ∉ ds := by
    intro hin
    rw [hds sg hin] at hsgd
    cases hsgd
  have h5 : sg = c0 := by
    rw [hcd] at h3
    rcases List.mem_cons.mp h3 with h | h
    · exact h
    · exact absurd h h4
  have h6 : s = p ++ sg :: (ds ++ q) := by
    rw [hs, hcd, h5]
    simp
  have h7 : sg ∉ p := by
    intro hin
    rw [hp sg hin] at hsgw
    cases hsgw
  obtain ⟨h9, _⟩ := append_cons_inj s1 p (hsplit.symm.trans h6) hnot h7
  intro c hc
  exact hp c (h9 ▸ hc)

/-- For a division question `a / b` whose two sides parse as integers, the
`+` and `-` fallback branches of `try_arithmetic` both fail: any `+`/`-` in
the text is a sign, so one side of the split is blank or still contains the
`/`. -/
theorem tryBin_sign_none {a b : List Char} {x : Int} {sg : Char}
    (hsg : sg = '+' ∨ sg = '-')
    (ha : parseI64 (trimStr a) = some x) :
    tryBin (a ++ '/' :: b) sg = none := by
  by_cases hm : sg ∈ a ++ '/' :: b
  · obtain ⟨l, r, hso, hsplit, hnl⟩ := splitOnce_of_mem hm
    by_cases hma : sg ∈ a
    · obtain ⟨a1, a2, _, haeq, hna1⟩ := splitOnce_of_mem hma
      have hqe : a ++ '/' :: b = a1 ++ sg :: (a2 ++ '/' :: b) := by
        rw [haeq]; simp
      obtain ⟨hl, _⟩ := append_cons_inj l a1 (hsplit.symm.trans hqe) hnl hna1
      have hws : ∀ c ∈ a1, isWsChar c = true := sign_ws_prefix ha hsg haeq hna1
      have hnil : trimStr l = [] := by rw [hl]; exact trim_of_all_ws hws
      simp [tryBin, hso, hnil, parseI64_nil]
    · have hsgslash : sg ≠ '/' := by rcases hsg with h | h <;> subst h <;> decide
      have hmb : sg ∈ b := by
        rcases List.mem_append.mp hm with h | h
        · exact absurd h hma
        · rcases List.mem_cons.mp h with h0 | h0
          · exact absurd h0 hsgslash
          · exact h0
      obtain ⟨b1, b2, _, hbeq, hnb1⟩ := splitOnce_of_mem hmb
      have hqe : a ++ '/' :: b = (a ++ '/' :: b1) ++ sg :: b2 := by
        rw [hbeq]; simp
      have hnl2 : sg ∉ a ++ '/' :: b1 := by
        intro hin
        rcases List.mem_append.mp hin with h | h
        · exact hma h
        · rcases List.mem_cons.mp h with h0 | h0
          · exact hsgslash h0
          · exact hnb1 h0
      obtain ⟨hl, _⟩ := append_cons_inj l (a ++ '/' :: b1) (hsplit.symm.trans hqe) hnl hnl2
      have hslash : '/' ∈ trimStr l := by
        apply mem_trim_of_not_ws _ (by decide)
        rw [hl]
        simp
      have hnone : parseI64 (trimStr l) = none := by
        rcases hh : parseI64 (trimStr l) with _ | w
        · rfl
        · rcases parseI64_chars hh '/' hslash with h | h | h <;> cases h
      simp [tryBin, hso, hnone]
  · simp [tryBin, splitOnce_eq_none hm]

/-- The core of C7: when the preprocessed question is an integer division
with divisor `0`, `try_arithmetic` yields no numeric answer at all. -/
theorem div0_no_arith {s a b : List Char} {x : Int}
    (hpre : preprocess s = a ++ '/' :: b)
    (ha : parseI64 (trimStr a) = some x) (hb : parseI64 (trimStr b) = some 0) :
    try_arithmetic s = none := by
  have hchars_a := chars_of_parse_trim ha
  have hchars_b := chars_of_parse_trim hb
  have hstar : ('*' : Char) ∉ a ++ '/' :: b := by
    intro hin
    rcases List.mem_append.mp hin with h | h
    · exact char_not_in hchars_a '*' (by decide) (by decide) (by decide) (by decide) h
    · rcases List.mem_cons.mp h with h0 | h0
      · cases h0
      · exact char_not_in hchars_b '*' (by decide) (by decide) (by decide) (by decide) h0
  have htimes : ('×' : Char) ∉ a ++ '/' :: b := by
    intro hin
    rcases List.mem_append.mp hin with h | h
    · exact char_not_in hchars_a '×' (by decide) (by decide) (by decide) (by decide) h
    · rcases List.mem_cons.mp h with h0 | h0
      · cases h0
      · exact char_not_in hchars_b '×' (by decide) (by decide) (by decide) (by decide) h0
  have hslash_a : ('/' : Char) ∉ a :=
    char_not_in hchars_a '/' (by decide) (by decide) (by decide) (by decide)
  have t1 : tryBin (a ++ '/' :: b) '*' = none := by
    simp [tryBin, splitOnce_eq_none hstar]
  have t2 : tryBin (a ++ '/' :: b) '×' = none := by
    simp [tryBin, splitOnce_eq_none htimes]
  have t3 : tryBin (a ++ '/' :: b) '/' = some (x, 0) := by
    simp [tryBin, splitOnce_append a b '/' hslash_a, ha, hb]
  have t4 : tryBin (a ++ '/' :: b) '+' = none := tryBin_sign_none (Or.inl rfl) ha
  have t5 : tryBin (a ++ '/' :: b) '-' = none := tryBin_sign_none (Or.inr rfl) ha
  have hafter : afterDiv (a ++ '/' :: b) = none := by
    simp [afterDiv, t4, t5]
  unfold try_arithmetic
  rw [hpre]
  simp [t1, t2, t3, hafter]

theorem hexEncode_cons (b : Nat) (tl : List Nat) :
    hexEncode (b :: tl) = hexByte b ++ hexEncode tl := rfl

theorem hexEncode_length (bs : List Nat) : (hexEncode bs).length = 2 * bs.length := by
  induction bs with
  | nil => rfl
  | cons b tl ih =>
    rw [hexEncode_cons, List.length_append, ih]
    simp [hexByte]
    omega

theorem sha256_length (msg : List Nat) : (sha256 msg).length = 32 := by
  unfold sha256
  dsimp only
  simp [wordBytes]

theorem wordBytes_lt (w : Nat) : ∀ b ∈ wordBytes w, b < 256 := by
  intro b hb
  simp only [wordBytes, List.mem_cons, List.not_mem_nil, or_false] at hb
  rcases hb with h | h | h | h <;> subst h <;> exact Nat.mod_lt _ (by norm_num)

theorem sha256_bytes_lt (msg : List Nat) : ∀ b ∈ sha256 msg, b < 256 := by
  unfold sha256
  dsimp only
  intro b hb
  simp only [List.mem_append] at hb
  rcases hb with ((((((h | h) | h) | h) | h) | h) | h) | h <;> exact wordBytes_lt _ _ h

theorem hexDigit_hex (n : Nat) (h : n < 16) : isHexLowerChar (hexDigit n) = true := by
  interval_cases n <;> decide

theorem hexEncode_all_hex (bs : List Nat) (h : ∀ b ∈ bs, b < 256) :
    (hexEncode bs).all isHexLowerChar = true := by
  induction bs with
  | nil => rfl
  | cons b tl ih =>
    have hb := h b (List.mem_cons_self ..)
    have h1 : b / 16 < 16 := by omega
    have h2 : b % 16 < 16 := Nat.mod_lt _ (by norm_num)
    rw [hexEncode_cons, List.all_append, Bool.and_eq_true]
    exact ⟨by simp [hexByte, List.all_cons, hexDigit_hex _ h1, hexDigit_hex _ h2],
      ih fun x hx => h x (List.mem_cons_of_mem _ hx)⟩

/-! ## Claims -/

/-- C1. Exactly-once consumption: `verify_challenge` always leaves the
pending map with the entry for `response.challenge_id` removed (the
lookup-and-remove is the single `pending.remove` step), an absent id fails
with `ChallengeNotFoundOrExpired` (HTTP 404), and any second attempt with
the same `challenge_id` therefore fails with `ChallengeNotFoundOrExpired`. -/
theorem challenge_consumed_exactly_once (oracle : Oracle) (uuid_bytes : List Nat)
    (now : Int) (st : AuthStateM) (req : VerifyRequest) :
    (verify_challenge oracle uuid_bytes now st req).2.pending =
      alErase st.pending req.response.challenge_id ∧
    (alLookup st.pending req.response.challenge_id = none →
      (verify_challenge oracle uuid_bytes now st req).1 =
        .error .challengeNotFoundOrExpired) ∧
    statusOf .challengeNotFoundOrExpired = 404 ∧
    (∀ (oracle2 : Oracle) (uuid2 : List Nat) (now2 : Int) (req2 : VerifyRequest),
      req2.response.challenge_id = req.response.challenge_id →
      (verify_challenge oracle2 uuid2 now2
          (verify_challenge oracle uuid_bytes now st req).2 req2).1 =
        .error .challengeNotFoundOrExpired) := by
  refine ⟨verifyChallenge_pending .., fun h => verifyChallenge_notFound _ _ _ _ _ h, rfl, ?_⟩
  intro oracle2 uuid2 now2 req2 hid
  apply verifyChallenge_notFound
  rw [hid, verifyChallenge_pending]
  exact alLookup_alErase ..

/-- C1 witness: on the concrete store `st0` a consumed id is gone, and the
second attempt with the same id fails with 404. -/
theorem challenge_consumed_exactly_once_witness :
    (verify_challenge acceptOracle uuid0 10 st0 reqGood).2.pending = alErase st0.pending 7 ∧
    (verify_challenge rejectOracle uuid0 11
        (verify_challenge acceptOracle uuid0 10 st0 reqGood).2 reqGood).1 =
      .error .challengeNotFoundOrExpired := by
  have h := challenge_consumed_exactly_once acceptOracle uuid0 10 st0 reqGood
  exact ⟨h.1, h.2.2.2 rejectOracle uuid0 11 reqGood (by decide)⟩

/-- C2. Peer binding: when the pending entry's `peer_id` differs from the
requesting peer, `verify_challenge` fails with `PeerMismatch` (HTTP 403)
whatever the oracle would say (so even when every answer is correct), no
token is stored, and the entry is still consumed, so a retry with the same
`challenge_id` fails with `ChallengeNotFoundOrExpired`. -/
theorem peer_mismatch_consumes_and_rejects (oracle : Oracle) (uuid_bytes : List Nat)
    (now : Int) (st : AuthStateM) (req : VerifyRequest) (p : PendingChallenge)
    (hlook : alLookup st.pending req.response.challenge_id = some p)
    (hpeer : p.peer_id ≠ req.peer_id) :
    (verify_challenge oracle uuid_bytes now st req).1 = .error .peerMismatch ∧
    statusOf .peerMismatch = 403 ∧
    (verify_challenge oracle uuid_bytes now st req).2.verified = st.verified ∧
    (verify_challenge oracle uuid_bytes now st req).2.pending =
      alErase st.pending req.response.challenge_id ∧
    (∀ (oracle2 : Oracle) (uuid2 : List Nat) (now2 : Int) (req2 : VerifyRequest),
      req2.response.challenge_id = req.response.challenge_id →
      (verify_challenge oracle2 uuid2 now2
          (verify_challenge oracle uuid_bytes now st req).2 req2).1 =
        .error .challengeNotFoundOrExpired) := by
  refine ⟨?_, rfl, ?_, verifyChallenge_pending .., ?_⟩
  · unfold verify_challenge
    simp [hlook, hpeer]
  · unfold verify_challenge
    simp [hlook, hpeer]
  · intro oracle2 uuid2 now2 req2 hid
    apply verifyChallenge_notFound
    rw [hid, verifyChallenge_pending]
    exact alLookup_alErase ..

/-- C2 witness: `reqWrongPeer` (all answers correct, accepting oracle) is
rejected with `PeerMismatch` and the challenge is consumed. -/
theorem peer_mismatch_consumes_and_rejects_witness :
    (verify_challenge acceptOracle uuid0 10 st0 reqWrongPeer).1 = .error .peerMismatch ∧
    (verify_challenge acceptOracle uuid0 10 st0 reqWrongPeer).2.verified = st0.verified := by
  have h := peer_mismatch_consumes_and_rejects acceptOracle uuid0 10 st0 reqWrongPeer
    pend0 (by decide) (by decide)
  exact ⟨h.1, h.2.2.1⟩

/-- C3. Logical expiry: `check_token` answers `valid = true` with the stored
`peer_id` and `remaining = TTL − age` exactly when the token is present and
strictly younger than `TOKEN_TTL`, answers the fixed invalid record
otherwise, and (being a pure read) mutates nothing; `is_peer_verified` holds
exactly when some stored token matches the peer and is younger than
`TOKEN_TTL`. Hence both report an expired token invalid with no `cleanup`. -/
theorem token_logical_expiry (now : Int) (st : AuthStateM) (tok : String) (pid : String) :
    ((check_token now st tok).valid = true ↔
      ∃ a, alLookup st.verified tok = some a ∧ now - a.verified_at < TOKEN_TTL_SECS) ∧
    (∀ a, alLookup st.verified tok = some a → now - a.verified_at < TOKEN_TTL_SECS →
      check_token now st tok =
        ⟨true, some a.peer_id, TOKEN_TTL_SECS - (now - a.verified_at)⟩) ∧
    ((check_token now st tok).valid = false → check_token now st tok = ⟨false, none, 0⟩) ∧
    (∀ a, alLookup st.verified tok = some a → TOKEN_TTL_SECS ≤ now - a.verified_at →
      (check_token now st tok).valid = false) ∧
    (is_peer_verified now st pid = true ↔
      ∃ t a, (t, a) ∈ st.verified ∧ a.peer_id = pid ∧
        now - a.verified_at < TOKEN_TTL_SECS) := by
  refine ⟨?_, ?_, ?_, ?_, ?_⟩
  · unfold check_token
    rcases h : alLookup st.verified tok with _ | a
    · simp
    · by_cases hage : now - a.verified_at < TOKEN_TTL_SECS <;> simp [hage]
  · intro a ha hage
    unfold check_token
    simp [ha, hage]
  · unfold check_token
    rcases h : alLookup st.verified tok with _ | a
    · simp
    · by_cases hage : now - a.verified_at < TOKEN_TTL_SECS <;> simp [hage]
  · intro a ha hage
    unfold check_token
    simp [ha, not_lt.mpr hage]
  · simp [is_peer_verified, List.any_eq_true, Prod.exists]

/-- C3 witness: for a token issued at 0, at `now = 3600` (age = TTL) the
check reports invalid and the peer is no longer verified, with no cleanup
having run. -/
theorem token_logical_expiry_witness :
    (check_token 3600 ⟨[], [("isnad_t", ⟨"peerA", 0⟩)]⟩ "isnad_t").valid = false ∧
    (check_token 10 ⟨[], [("isnad_t", ⟨"peerA", 0⟩)]⟩ "isnad_t") =
      ⟨true, some ("peerA"), 3590⟩ := by
  have h1 := (token_logical_expiry 3600 ⟨[], [("isnad_t", ⟨"peerA", 0⟩)]⟩ "isnad_t" "peerA").2.2.2.1
    ⟨"peerA", 0⟩ (by decide) (by decide)
  have h2 := (token_logical_expiry 10 ⟨[], [("isnad_t", ⟨"peerA", 0⟩)]⟩ "isnad_t" "peerA").2.1
    ⟨"peerA", 0⟩ (by decide) (by decide)
  exact ⟨h1, h2⟩

/-- C4. Cleanup exactness: an entry survives `cleanup` (same key, same
value, original order — the result is a sublist) precisely when its age is
strictly below its TTL; equivalently, exactly the entries with age
`≥ CHALLENGE_TTL` (pending) or `≥ TOKEN_TTL` (tokens) are removed. -/
theorem cleanup_exact (now : Int) (st : AuthStateM) :
    (∀ (k : Nat) (v : PendingChallenge),
      (k, v) ∈ (cleanup now st).pending ↔
        (k, v) ∈ st.pending ∧ now - v.issued_at < CHALLENGE_TTL_SECS) ∧
    (∀ (t : String) (a : VerifiedAgent),
      (t, a) ∈ (cleanup now st).verified ↔
        (t, a) ∈ st.verified ∧ now - a.verified_at < TOKEN_TTL_SECS) ∧
    (cleanup now st).pending.Sublist st.pending ∧
    (cleanup now st).verified.Sublist st.verified := by
  refine ⟨?_, ?_, List.filter_sublist _, List.filter_sublist _⟩ <;>
    · intro k v
      simp [cleanup, List.mem_filter]

/-- C4 witness: a 60-second-old pending entry is purged while a 59-second-old
one survives. -/
theorem cleanup_exact_witness :
    ¬ (7, pend0) ∈ (cleanup 60 st0).pending ∧ (7, pend0) ∈ (cleanup 59 st0).pending := by
  constructor
  · intro h
    have := ((cleanup_exact 60 st0).1 7 pend0).mp h
    exact absurd this.2 (by decide)
  · exact ((cleanup_exact 59 st0).1 7 pend0).mpr ⟨by decide, by decide⟩

/-- C6. MetaQuestion echo: for every `MetaQuestion` task, whatever its
prompt, the solver's answer is exactly the task's `expected_keyword`. -/
theorem meta_question_echo (applyTextOp : String → TextOp → String)
    (prompt expected_keyword : String) :
    solve_task applyTextOp (.metaQuestion prompt expected_keyword) =
      .metaQuestion expected_keyword := rfl

/-- C9 counterexample: a response with one answer against a stored
two-task challenge is not rejected before the oracle call — with an
all-accepting oracle, `verify_challenge` issues a token, so the
arity-mismatched response reached the oracle and the claimed pre-oracle
rejection does not exist. -/
theorem arity_check_counterexample :
    reqArity.response.answers.length = 1 ∧
    pend0.challenge.tasks.length = 2 ∧
    alLookup st0.pending reqArity.response.challenge_id = some pend0 ∧
    pend0.peer_id = reqArity.peer_id ∧
    (verify_challenge acceptOracle uuid0 10 st0 reqArity).1.isOk = true := by
  refine ⟨rfl, rfl, by decide, rfl, ?_⟩
  decide

/-- C9 (amended). `verify_challenge` performs no arity check of its own
before the oracle call: once the pending entry is found and the peer
matches, the response — including one whose answer list does not match the
task list in length — is handed to the oracle verbatim, and the outcome is
exactly the oracle's verdict. -/
theorem arity_delegated_to_oracle (oracle : Oracle) (uuid_bytes : List Nat) (now : Int)
    (st : AuthStateM) (req : VerifyRequest) (p : PendingChallenge)
    (hlook : alLookup st.pending req.response.challenge_id = some p)
    (hpeer : p.peer_id = req.peer_id) :
    (verify_challenge oracle uuid_bytes now st req).1 =
      match oracle p.challenge req.response p.expected_answers with
      | .ok _ => .ok ⟨String.mk (generate_token (utf8Encode req.peer_id) uuid_bytes now),
          TOKEN_TTL_SECS, req.peer_id⟩
      | .error e => .error (.verificationFailed e) := by
  unfold verify_challenge
  rcases ho : oracle p.challenge req.response p.expected_answers with e | v <;>
    simp [hlook, hpeer, ho]

/-- C9 amended witness: the arity-mismatched `reqArity` produces exactly the
oracle's verdict — acceptance under the accepting oracle. -/
theorem arity_delegated_to_oracle_witness :
    (verify_challenge acceptOracle uuid0 10 st0 reqArity).1 =
      .ok ⟨String.mk (generate_token (utf8Encode ("peerA")) uuid0 10), TOKEN_TTL_SECS, "peerA"⟩ := by
  have h := arity_delegated_to_oracle acceptOracle uuid0 10 st0 reqArity pend0
    (by decide) (by decide)
  simpa [acceptOracle] using h

/-- C5. The pattern solver's rule ladder: the four spec examples evaluate as
claimed (arithmetic `[2,4,6,8] → [10,12]`, quadratic `[1,4,9,16] → [25,36]`,
geometric `[3,6,12,24] → [48,96]`, Fibonacci-like `[1,1,2,3,5] → [8,13]`);
fewer than two given values yield `predict_count` zeros; a constant first
difference (the first rule tried) always decides the output as the
arithmetic extrapolation; and when none of the four rules matches, the
output continues with the last observed first difference. -/
theorem solve_pattern_rules :
    solve_pattern ⟨[2, 4, 6, 8], 2⟩ = [10, 12] ∧
    solve_pattern ⟨[1, 4, 9, 16], 2⟩ = [25, 36] ∧
    solve_pattern ⟨[3, 6, 12, 24], 2⟩ = [48, 96] ∧
    solve_pattern ⟨[1, 1, 2, 3, 5], 2⟩ = [8, 13] ∧
    (∀ (g : List Int) (n : Nat), g.length < 2 →
      solve_pattern ⟨g, n⟩ = List.replicate n 0) ∧
    (∀ (g : List Int) (n : Nat), 2 ≤ g.length →
      ((windows2 ((windows2 g).map fun w => w.2 - w.1)).all fun w => w.1 == w.2) = true →
      solve_pattern ⟨g, n⟩ =
        extrapArith (g.getLastD 0) (((windows2 g).map fun w => w.2 - w.1).headD 0) n) ∧
    (∀ (g : List Int) (n : Nat), 2 ≤ g.length →
      ((windows2 ((windows2 g).map fun w => w.2 - w.1)).all fun w => w.1 == w.2) = false →
      ((windows2 ((windows2 ((windows2 g).map fun w => w.2 - w.1)).map
          fun w => w.2 - w.1)).all fun w => w.1 == w.2) = false →
      ((g.all fun x => !(x == 0)) &&
        ((windows2 ((windows2 g).map fun w => Rat.divInt w.2 w.1)).all
          fun w => decide (ratAbs (qSub w.1 w.2) < Rat.divInt 1 1000))) = false →
      ((decide (3 ≤ g.length)) &&
        ((windows3 g).all fun w => w.2.2 == w.1 + w.2.1)) = false →
      solve_pattern ⟨g, n⟩ =
        extrapArith (g.getLastD 0)
          ((((windows2 g).map fun w => w.2 - w.1).getLast?).getD 1) n) := by
  refine ⟨by decide, by decide, by decide, by decide, ?_, ?_, ?_⟩
  · intro g n h
    unfold solve_pattern
    dsimp only
    rw [if_pos h]
  · intro g n h2 hall
    unfold solve_pattern
    dsimp only
    rw [if_neg (by omega), if_pos hall]
  · intro g n h2 h1 hq hg hf
    unfold solve_pattern
    dsimp only
    rw [if_neg (by omega), if_neg (by simp only [h1]; exact Bool.false_ne_true),
      if_neg (by simp only [hq]; exact Bool.false_ne_true),
      if_neg (by simp only [hg]; exact Bool.false_ne_true),
      if_neg (by simp only [hf]; exact Bool.false_ne_true)]

/-- C5 witness: no rule matches `[1,2,4,8,9]` (differences 1, 2, 4, 1), so
the solver continues with the last difference 1. -/
theorem solve_pattern_rules_witness :
    solve_pattern ⟨[1, 2, 4, 8, 9], 2⟩ = extrapArith 9 1 2 ∧ extrapArith 9 1 2 = [10, 11] := by
  refine ⟨?_, by decide⟩
  have h := solve_pattern_rules.2.2.2.2.2.2 [1, 2, 4, 8, 9] 2
    (by decide) (by decide) (by decide) (by decide) (by decide)
  simpa using h

/-- C7. Question answering with guarded division: `"What is 7 * 8?"` is
answered `"56"` (case and interrogative framing stripped, `*` detected and
evaluated); and for every question whose preprocessed form is an integer
division with divisor `0`, `try_arithmetic` yields no numeric answer, so
`answer_question` falls through to the fixed fact table and ultimately to
the literal `"unknown"`. -/
theorem question_division_guard :
    answer_question ("What is 7 * 8?") = "56" ∧
    (∀ (q a b : List Char) (x : Int),
      preprocess (toLowerStr q) = a ++ '/' :: b →
      parseI64 (trimStr a) = some x →
      parseI64 (trimStr b) = some 0 →
      try_arithmetic (toLowerStr q) = none ∧
      answerQuestionChars q = lookupFacts (toLowerStr q)) := by
  refine ⟨by decide, ?_⟩
  intro q a b x hpre ha hb
  have hnone : try_arithmetic (toLowerStr q) = none := div0_no_arith hpre ha hb
  refine ⟨hnone, ?_⟩
  unfold answerQuestionChars
  dsimp only
  rw [hnone]

/-- C7 witness: `"What is 8 / 0?"` preprocesses to the division `8 / 0`,
gets no arithmetic answer, and is answered from the fact table as
`"unknown"`. -/
theorem question_division_guard_witness :
    preprocess (toLowerStr ("What is 8 / 0?".data)) = "8 ".data ++ '/' :: " 0".data ∧
    try_arithmetic (toLowerStr ("What is 8 / 0?".data)) = none ∧
    answer_question ("What is 8 / 0?") = "unknown" := by
  have h := question_division_guard.2 ("What is 8 / 0?".data) ("8 ".data) (" 0".data) 8
    (by decide) (by decide) (by decide)
  exact ⟨by decide, h.1, by decide⟩

/-- C8. Token format: `generate_token` is `"isnad_"` followed by the
lowercase-hex SHA-256 digest (64 characters in `[0-9a-f]`) of
`peer_id bytes ‖ 16 random bytes ‖ 8-byte little-endian unix-seconds
timestamp`, for every peer, random value and timestamp; and the token is not
a function of `peer_id` alone — for the same peer, different random bytes
give a different token. -/
theorem token_format :
    (∀ (peer_bytes uuid_bytes : List Nat) (ts : Int),
      generate_token peer_bytes uuid_bytes ts =
        "isnad_".data ++ hexEncode (sha256 (peer_bytes ++ uuid_bytes ++ i64ToLeBytes ts)) ∧
      (generate_token peer_bytes uuid_bytes ts).take 6 = "isnad_".data ∧
      ((generate_token peer_bytes uuid_bytes ts).drop 6).length = 64 ∧
      ((generate_token peer_bytes uuid_bytes ts).drop 6).all isHexLowerChar = true) ∧
    generate_token [112] uuid0 0 ≠ generate_token [112] (1 :: List.replicate 15 0) 0 := by
  refine ⟨?_, by decide⟩
  intro peer_bytes uuid_bytes ts
  refine ⟨rfl, ?_, ?_, ?_⟩
  · rw [generate_token, show (6 : Nat) = ("isnad_".data).length from rfl]
    exact List.take_left ..
  · rw [generate_token, show (6 : Nat) = ("isnad_".data).length from rfl, List.drop_left,
      hexEncode_length, sha256_length]
  · rw [generate_token, show (6 : Nat) = ("isnad_".data).length from rfl, List.drop_left]
    exact hexEncode_all_hex _ (sha256_bytes_lt _)

/-- C8 witness: the concrete token for peer byte `112`, zero uuid and
timestamp 0 has the claimed prefix and 64-character hex body. -/
theorem token_format_witness :
    (generate_token [112] uuid0 0).take 6 = "isnad_".data ∧
    ((generate_token [112] uuid0 0).drop 6).length = 64 :=
  ⟨(token_format.1 [112] uuid0 0).2.1, (token_format.1 [112] uuid0 0).2.2.1⟩

/-- C10. Totality of the pattern solver: `solve_pattern` is a total Lean
function (every branch is structurally recursive; the one division, in the
geometric branch, is over `ℚ` and guarded by the all-nonzero test), and for
every input it returns exactly `predict_count` predictions. -/
theorem solve_pattern_total_length (seq : PatternSequence) :
    (solve_pattern seq).length = seq.predict_count := by
  unfold solve_pattern
  dsimp only
  split
  · simp
  · split
    · simp [extrapArith_length]
    · split
      · simp [extrapQuad_length]
      · split
        · simp [extrapGeo_length]
        · split
          · rw [List.length_drop, fibExtend_length]
            omega
          · simp [extrapArith_length]

end Bastion
